import Mathlib

set_option maxRecDepth 4000
set_option maxHeartbeats 1000000

/-!
Shallow embedding of the resolution engine of `bot.py`:
text normalization, query detectors, fuzzy candidate resolution,
unit ordering, document filtering, the finalize fallback chain,
and the dialog flow handlers.  Strings are modelled as Lean `String`
(lists of characters); Python semantics such as truthiness of `None`
and `""` are made explicit.  The ASCII fragment of Python's `str.lower`,
`\w`, `\s` and `\d` classes is modelled (the catalog and queries the
claims are about are ASCII).
-/

namespace BoatBot

/-- ASCII lower-casing of one character, the model of Python `str.lower`
on the basic latin range. -/
def lowerChar (c : Char) : Char :=
  if h : 65 ≤ c.toNat ∧ c.toNat ≤ 90 then
    Char.ofNatAux (c.toNat + 32) (Or.inl (by omega))
  else c

/-- The model of Python's `\s` character class (ASCII fragment). -/
def isPySpace (c : Char) : Bool :=
  c = ' ' || c = '\t' || c = '\n' || c = '\r' || c = '\x0b' || c = '\x0c'

/-- The model of Python's `\w` character class (ASCII fragment):
letters, digits and underscore. -/
def isWordChar (c : Char) : Bool :=
  c.isAlpha || c.isDigit || c = '_'

/-- A character kept unchanged by the substitution
`re.sub(r"[^\w\s#\.]", " ", text)` in `normalize`. -/
def isKept (c : Char) : Bool :=
  isWordChar c || isPySpace c || c = '#' || c = '.'

/-- Model of `str.strip`: drop leading and trailing whitespace. -/
def trimWs (l : List Char) : List Char :=
  ((l.dropWhile isPySpace).reverse.dropWhile isPySpace).reverse

/-- Model of `re.sub(r"[^\w\s#\.]", " ", text)`. -/
def replBad (l : List Char) : List Char :=
  l.map (fun c => if isKept c then c else ' ')

/-- Model of `re.sub(r"\s+", " ", text)`: every maximal whitespace run
becomes a single space. -/
def collapseWs : List Char → List Char
  | [] => []
  | c :: t =>
    if isPySpace c then
      match collapseWs t with
      | [] => [' ']
      | d :: rest => if d = ' ' then d :: rest else ' ' :: d :: rest
    else c :: collapseWs t

/-- `normalize` from `bot.py`: lower-case, strip, replace characters
outside word/whitespace/`#`/`.` with a space, collapse whitespace runs. -/
def normalize (s : String) : String :=
  ⟨collapseWs (replBad (trimWs (s.data.map lowerChar)))⟩

/-- Word accumulator for `wordsOf`; the first argument is the remaining
input, the second the reversed current word. -/
def wordsAux : List Char → List Char → List String
  | [], acc => if acc.isEmpty then [] else [⟨acc.reverse⟩]
  | c :: t, acc =>
    if isPySpace c then
      if acc.isEmpty then wordsAux t [] else ⟨acc.reverse⟩ :: wordsAux t []
    else wordsAux t (c :: acc)

/-- Splits a character list on whitespace into the non-empty maximal
words, the model of Python `str.split()` with no argument. -/
def wordsOf (l : List Char) : List String := wordsAux l []

/-- Hint tokens for Spanish, in the source's order. -/
def esHints : List String :=
  ["es", "spa", "spanish", "español", "espanol", "castellano", "spagnolo"]

/-- Hint tokens for English, in the source's order. -/
def enHints : List String :=
  ["en", "eng", "english", "inglese", "inglés", "ingles"]

/-- Hint tokens for the broker variant. -/
def brokerHints : List String := ["broker", "bf", "brok"]

/-- Hint tokens for the standard variant. -/
def standardHints : List String := ["standard", "std", "normale"]

/-- `detect_lang` from `bot.py`: first language (dict order: es, en)
whose hint set meets the token set of the normalized query. -/
def detect_lang (q : String) : Option String :=
  let toks := wordsOf (normalize q).data
  if esHints.any (fun h => toks.contains h) then some "es"
  else if enHints.any (fun h => toks.contains h) then some "en"
  else none

/-- `detect_variant` from `bot.py`: first variant (dict order: broker,
standard) whose hint set meets the token set of the normalized query. -/
def detect_variant (q : String) : Option String :=
  let toks := wordsOf (normalize q).data
  if brokerHints.any (fun h => toks.contains h) then some "broker"
  else if standardHints.any (fun h => toks.contains h) then some "standard"
  else none

/-- Case-insensitive literal match: strip the (lower-case) pattern from
the front of the input, comparing input characters lower-cased. -/
def dropPreCI : List Char → List Char → Option (List Char)
  | [], l => some l
  | _ :: _, [] => none
  | p :: ps, c :: cs => if lowerChar c = p then dropPreCI ps cs else none

/-- The alternatives of the group `(#|unit|unidad|ordine|order|n\.?)` of
`UNIT_REF_REGEX`, in the order the regex engine tries them (the greedy
`\.?` makes `n.` come before `n`). -/
def markerAlts : List (List Char) :=
  ["#".data, "unit".data, "unidad".data, "ordine".data, "order".data,
   "n.".data, "n".data]

/-- Try each marker alternative at the current position: after the
literal, skip `\s*`, then greedily take at most 5 digits (`\d{1,5}`);
an alternative with no digit after it fails and the next one is tried. -/
def tryAlts : List (List Char) → List Char → Option (List Char)
  | [], _ => none
  | p :: ps, cs =>
    match dropPreCI p cs with
    | some rest =>
      let run := (rest.dropWhile isPySpace).takeWhile Char.isDigit
      if run.isEmpty then tryAlts ps cs else some (run.take 5)
    | none => tryAlts ps cs

/-- Leftmost search of `UNIT_REF_REGEX`, returning the digit group. -/
def findUnit : List Char → Option (List Char)
  | [] => none
  | c :: t =>
    match tryAlts markerAlts (c :: t) with
    | some r => some r
    | none => findUnit t

/-- `detect_unit_ref` from `bot.py`: `UNIT_REF_REGEX.search` over the raw
query, returning group 2 (the digits) of the first match. -/
def detect_unit_ref (q : String) : Option String :=
  (findUnit q.data).map (fun l => ⟨l⟩)

/-- One catalog row as built by `load_catalog`. -/
structure Entry where
  brand : String
  model : String
  unit_ref : String
  variant : String
  lang : String
  availability : String
  delivery : String
  url : String
  keys_norm : List String
deriving DecidableEq

/-- The `(key, item)` pairs built by `best_model_match`'s loop over the
catalog: every normalized key of every entry, paired with its entry. -/
def pairsOf : List Entry → List (String × Entry)
  | [] => []
  | it :: t => it.keys_norm.map (fun k => (k, it)) ++ pairsOf t

/-- Fold of `process.extractOne`: keep the current best-scoring pair,
replacing it only on a strictly greater score (ties keep the earlier
pair, as rapidfuzz does). -/
def bestGo (f : String → Nat) : Entry × Nat → List (String × Entry) → Entry × Nat
  | c, [] => c
  | (e, s), (k, e') :: t =>
    if s < f k then bestGo f (e', f k) t else bestGo f (e, s) t

/-- Model of `process.extractOne(qn, choices, scorer)`: `none` on an
empty choice list, otherwise the first pair attaining the maximal score.
The scorer is a parameter (rapidfuzz's `fuzz.WRatio` is external). -/
def extractOne (f : String → Nat) : List (String × Entry) → Option (Entry × Nat)
  | [] => none
  | (k, e) :: t => some (bestGo f (e, f k) t)

/-- `best_model_match` from `bot.py`, with the catalog and the scoring
function as explicit parameters. -/
def best_model_match (scorer : String → String → Nat) (catalog : List Entry)
    (q : String) : Option Entry × Nat :=
  let qn := normalize q
  match extractOne (scorer qn) (pairsOf catalog) with
  | none => (none, 0)
  | some (e, s) => (some e, s)

/-- `candidates_for_query` from `bot.py`: reject below score 70, expand
the best match to its brand+model sibling family, then narrow by a
detected unit reference unless that narrowing would empty the set. -/
def candidates_for_query (scorer : String → String → Nat) (catalog : List Entry)
    (q : String) : List Entry × Nat :=
  let want_unit := detect_unit_ref q
  match best_model_match scorer catalog q with
  | (none, score) => ([], score)
  | (some base_item, score) =>
    if score < 70 then ([], score)
    else
      let cands := catalog.filter
        (fun x => decide (x.brand = base_item.brand ∧ x.model = base_item.model))
      let cands :=
        match want_unit with
        | some u =>
          let filtered := cands.filter (fun x => decide (x.unit_ref = u))
          if filtered.isEmpty then cands else filtered
        | none => cands
      (cands, score)

/-- Strict comparison of characters by code point, the model of
Python's character comparison. -/
def charLtB (a b : Char) : Bool := decide (a.toNat < b.toNat)

/-- Strict lexicographic comparison of character lists by code point,
the model of Python string comparison. -/
def listLtB : List Char → List Char → Bool
  | [], [] => false
  | [], _ :: _ => true
  | _ :: _, [] => false
  | a :: as, b :: bs =>
    if charLtB a b then true
    else if charLtB b a then false
    else listLtB as bs

/-- Strict lexicographic comparison of strings, the model of Python's
`<` on `str`. -/
def strLtB (a b : String) : Bool := listLtB a.data b.data

/-- The availability component of `unit_rank`: 0 for `in_stock`,
1 for anything else. -/
def availRank (e : Entry) : Nat :=
  if e.availability = "in_stock" then 0 else 1

/-- The composite sort key order of `unique_units`: availability rank,
then delivery string, then unit reference (lexicographic, as Python
compares the tuples produced by `unit_rank`). -/
def keyLe (a b : Entry) : Prop :=
  availRank a < availRank b ∨
    (availRank a = availRank b ∧
      (strLtB a.delivery b.delivery = true ∨
        (a.delivery = b.delivery ∧
          (strLtB a.unit_ref b.unit_ref = true ∨ a.unit_ref = b.unit_ref))))

instance : DecidableRel keyLe := fun a b => by
  unfold keyLe
  infer_instance

theorem charLtB_eq_of_not {a b : Char} (h1 : ¬charLtB a b = true)
    (h2 : ¬charLtB b a = true) : a = b := by
  simp only [charLtB, decide_eq_true_eq] at h1 h2
  have hn : a.toNat = b.toNat := by omega
  calc a = Char.ofNat a.toNat := (Char.ofNat_toNat a).symm
    _ = Char.ofNat b.toNat := by rw [hn]
    _ = b := Char.ofNat_toNat b

theorem listLtB_total : ∀ x y : List Char,
    listLtB x y = true ∨ listLtB y x = true ∨ x = y := by
  intro x
  induction x with
  | nil =>
    intro y
    cases y with
    | nil => exact Or.inr (Or.inr rfl)
    | cons b bs => exact Or.inl rfl
  | cons a as ih =>
    intro y
    cases y with
    | nil => exact Or.inr (Or.inl rfl)
    | cons b bs =>
      by_cases hab : charLtB a b = true
      · exact Or.inl (by simp [listLtB, hab])
      · by_cases hba : charLtB b a = true
        · exact Or.inr (Or.inl (by simp [listLtB, hba]))
        · cases charLtB_eq_of_not hab hba
          rcases ih bs with h | h | h
          · exact Or.inl (by simp [listLtB, hab, h])
          · exact Or.inr (Or.inl (by simp [listLtB, hab, h]))
          · exact Or.inr (Or.inr (by rw [h]))

theorem listLtB_cons_iff (a b : Char) (as bs : List Char) :
    listLtB (a :: as) (b :: bs) = true ↔
      (a.toNat < b.toNat ∨ (a.toNat = b.toNat ∧ listLtB as bs = true)) := by
  by_cases hab : charLtB a b = true
  · have h := hab
    simp only [charLtB, decide_eq_true_eq] at h
    simp [listLtB, hab, h]
  · by_cases hba : charLtB b a = true
    · have h1 := hab
      have h2 := hba
      simp only [charLtB, decide_eq_true_eq] at h1 h2
      simp only [listLtB, if_neg hab, if_pos hba]
      constructor
      · intro h
        simp at h
      · rintro (h | ⟨h, _⟩) <;> omega
    · have heq := charLtB_eq_of_not hab hba
      have h1 := hab
      simp only [charLtB, decide_eq_true_eq] at h1
      simp only [listLtB, if_neg hab, if_neg hba]
      constructor
      · intro h
        exact Or.inr ⟨by rw [heq], h⟩
      · rintro (h | ⟨_, h⟩)
        · omega
        · exact h

theorem listLtB_trans : ∀ x y z : List Char,
    listLtB x y = true → listLtB y z = true → listLtB x z = true := by
  intro x
  induction x with
  | nil =>
    intro y z hxy hyz
    cases z with
    | nil =>
      cases y with
      | nil => simp [listLtB] at hxy
      | cons b bs => simp [listLtB] at hyz
    | cons c cs => rfl
  | cons a as ih =>
    intro y z hxy hyz
    cases y with
    | nil => simp [listLtB] at hxy
    | cons b bs =>
      cases z with
      | nil => simp [listLtB] at hyz
      | cons c cs =>
        rw [listLtB_cons_iff] at hxy hyz ⊢
        rcases hxy with h1 | ⟨h1, h1r⟩ <;> rcases hyz with h2 | ⟨h2, h2r⟩
        · exact Or.inl (by omega)
        · exact Or.inl (by omega)
        · exact Or.inl (by omega)
        · exact Or.inr ⟨by omega, ih bs cs h1r h2r⟩

theorem string_ext {a b : String} (h : a.data = b.data) : a = b := by
  cases a
  cases b
  exact congrArg String.mk h

instance : IsTotal Entry keyLe where
  total a b := by
    unfold keyLe
    rcases Nat.lt_trichotomy (availRank a) (availRank b) with h | h | h
    · exact Or.inl (Or.inl h)
    · rcases listLtB_total a.delivery.data b.delivery.data with h2 | h2 | h2
      · exact Or.inl (Or.inr ⟨h, Or.inl h2⟩)
      · exact Or.inr (Or.inr ⟨h.symm, Or.inl h2⟩)
      · have hde : a.delivery = b.delivery := string_ext h2
        rcases listLtB_total a.unit_ref.data b.unit_ref.data with h3 | h3 | h3
        · exact Or.inl (Or.inr ⟨h, Or.inr ⟨hde, Or.inl h3⟩⟩)
        · exact Or.inr (Or.inr ⟨h.symm, Or.inr ⟨hde.symm, Or.inl h3⟩⟩)
        · exact Or.inl (Or.inr ⟨h, Or.inr ⟨hde, Or.inr (string_ext h3)⟩⟩)
    · exact Or.inr (Or.inl h)

instance : IsTrans Entry keyLe where
  trans a b c hab hbc := by
    rcases hab with h1 | ⟨e1, h1⟩
    · rcases hbc with h2 | ⟨e2, _⟩
      · exact Or.inl (h1.trans h2)
      · exact Or.inl (e2 ▸ h1)
    · rcases hbc with h2 | ⟨e2, h2⟩
      · exact Or.inl (e1 ▸ h2)
      · refine Or.inr ⟨e1.trans e2, ?_⟩
        rcases h1 with d1 | ⟨f1, u1⟩
        · rcases h2 with d2 | ⟨f2, _⟩
          · exact Or.inl (listLtB_trans _ _ _ d1 d2)
          · exact Or.inl (f2 ▸ d1)
        · rcases h2 with d2 | ⟨f2, u2⟩
          · exact Or.inl (f1 ▸ d2)
          · refine Or.inr ⟨f1.trans f2, ?_⟩
            rcases u1 with u1 | u1
            · rcases u2 with u2 | u2
              · exact Or.inl (listLtB_trans _ _ _ u1 u2)
              · exact Or.inl (u2 ▸ u1)
            · rcases u2 with u2 | u2
              · exact Or.inl (u1 ▸ u2)
              · exact Or.inr (u1.trans u2)

/-- The first-seen deduplication by `unit_ref` performed by the
`units.setdefault` loop of `unique_units`; `seen` is the set of
references already in the dict. -/
def dedupGo (seen : List String) : List Entry → List Entry
  | [] => []
  | x :: t =>
    if x.unit_ref ∈ seen then dedupGo seen t
    else x :: dedupGo (x.unit_ref :: seen) t

/-- First-seen representatives per `unit_ref`, in insertion order. -/
def dedupFirst (cands : List Entry) : List Entry := dedupGo [] cands

/-- `unique_units` from `bot.py`: deduplicate by `unit_ref` (first entry
wins) and sort the representatives by `unit_rank`.  The sort keys of
distinct representatives are distinct (they include `unit_ref`), so any
correct sorting algorithm yields Python's `sorted` result. -/
def unique_units (cands : List Entry) : List Entry :=
  List.insertionSort keyLe (dedupFirst cands)

/-- Python truthiness of an optional string slot: `None` and `""` are
falsy. -/
def truthy : Option String → Bool
  | none => false
  | some s => !decide (s = "")

/-- One `if <slot>: out = [x for x in out if x[field] == <slot>]` block
of `filter_doc`. -/
def slotFilter (field : Entry → String) (o : Option String)
    (out : List Entry) : List Entry :=
  match o with
  | none => out
  | some s => if s = "" then out else out.filter (fun x => decide (field x = s))

/-- `filter_doc` from `bot.py`: filter by unit reference, then language,
then variant, each only when the slot value is truthy. -/
def filter_doc (cands : List Entry) (unit_ref lang variant : Option String) :
    List Entry :=
  slotFilter Entry.variant variant
    (slotFilter Entry.lang lang
      (slotFilter Entry.unit_ref unit_ref cands))

/-- The per-conversation flow dictionary created by `ensure_flow`. -/
structure Flow where
  query : Option String
  cands : List Entry
  unit_ref : Option String
  lang : Option String
  variant : Option String
  stage : Option String
deriving DecidableEq

/-- The fresh flow inserted by `ensure_flow` when none exists. -/
def emptyFlow : Flow :=
  { query := none, cands := [], unit_ref := none, lang := none,
    variant := none, stage := none }

/-- `ensure_flow`: reuse the stored flow, or create a fresh one. -/
def ensure_flow (s : Option Flow) : Flow := s.getD emptyFlow

/-- The abstract outbound messages of the engine. -/
inductive Action where
  | askUnit (units : List Entry)
  | askLang
  | askVariant
  | deliver (e : Entry)
  | noMatch
  | noCandidate
  | cancelled
  | ack
deriving DecidableEq

/-- `ask_unit`: with at most one unique unit, auto-fill the slot and do
not ask; otherwise enter stage `unit` and offer the first 10 units. -/
def ask_unit (f : Flow) : Flow × Option Action :=
  let units := unique_units f.cands
  if units.length ≤ 1 then
    ({ f with unit_ref := units.head?.map Entry.unit_ref }, none)
  else
    ({ f with stage := some "unit" }, some (Action.askUnit (units.take 10)))

/-- `ask_lang`: skip when the slot is truthy, otherwise enter stage
`lang` and ask. -/
def ask_lang (f : Flow) : Flow × Option Action :=
  if truthy f.lang then (f, none)
  else ({ f with stage := some "lang" }, some Action.askLang)

/-- `ask_variant`: skip when the slot is truthy, otherwise enter stage
`variant` and ask. -/
def ask_variant (f : Flow) : Flow × Option Action :=
  if truthy f.variant then (f, none)
  else ({ f with stage := some "variant" }, some Action.askVariant)

/-- The first, strictest filter of `finalize_and_send`: all three slots. -/
def docs1 (f : Flow) : List Entry :=
  filter_doc f.cands f.unit_ref f.lang f.variant

/-- `docs1` after the first fallback (`if not docs and lang and variant`:
drop the variant filter). -/
def docs2 (f : Flow) : List Entry :=
  if (docs1 f).isEmpty && truthy f.lang && truthy f.variant then
    filter_doc f.cands f.unit_ref f.lang none
  else docs1 f

/-- `docs2` after the second fallback (`if not docs and lang`: again
unit+language, the deliberate no-op repetition of the source). -/
def docs3 (f : Flow) : List Entry :=
  if (docs2 f).isEmpty && truthy f.lang then
    filter_doc f.cands f.unit_ref f.lang none
  else docs2 f

/-- `docs3` after the last fallback (`if not docs`: unit filter only). -/
def docs4 (f : Flow) : List Entry :=
  if (docs3 f).isEmpty then filter_doc f.cands f.unit_ref none none
  else docs3 f

/-- `finalize_and_send` from `bot.py`: the fallback chain over the
stored candidate set, then deliver the first document or report no
match; the session is cleared either way. -/
def finalize_and_send (f : Flow) : Option Flow × Action :=
  match docs4 f with
  | [] => (none, Action.noMatch)
  | e :: _ => (none, Action.deliver e)

/-- The detector pre-fill at the start of `run_flow`: store the query,
overwrite a slot only when the detector finds a value. -/
def prefill (f : Flow) (q : String) : Flow :=
  { f with
    query := some q
    lang := (detect_lang q).or f.lang
    variant := (detect_variant q).or f.variant
    unit_ref := (detect_unit_ref q).or f.unit_ref }

/-- Steps 1-4 of `run_flow` after the candidate set is stored: ask the
unit question if the slot is falsy, then language, then variant, and
finalize when no question was asked. -/
def continueFlow (f : Flow) : Option Flow × Action :=
  let p1 := if truthy f.unit_ref then (f, none) else ask_unit f
  match p1 with
  | (f1, some a) => (some f1, a)
  | (f1, none) =>
    match ask_lang f1 with
    | (f2, some a) => (some f2, a)
    | (f2, none) =>
      match ask_variant f2 with
      | (f3, some a) => (some f3, a)
      | (f3, none) => finalize_and_send f3

/-- `run_flow` from `bot.py`: ensure a flow, pre-fill from detectors,
resolve candidates (reporting failure and resetting when empty), store
the candidate set and continue with the question steps. -/
def run_flow (scorer : String → String → Nat) (catalog : List Entry)
    (s : Option Flow) (q : String) : Option Flow × Action :=
  let f := prefill (ensure_flow s) q
  match candidates_for_query scorer catalog q with
  | ([], _) => (none, Action.noCandidate)
  | (cs, _) => continueFlow { f with cands := cs }

/-- Literal prefix stripping on the callback data (the model of Python's
`q.data.split(":", 1)[1]` after a `startswith` check). -/
def dropPre : List Char → List Char → Option (List Char)
  | [], l => some l
  | _ :: _, [] => none
  | p :: ps, c :: cs => if p = c then dropPre ps cs else none

/-- `handle_callback` from `bot.py`: dispatch on the callback data
string alone — `CANCEL`, then the `UNIT:`, `LANG:`, `VAR:` prefixes;
the stored stage is never consulted.  Unknown data falls through with
no reply. -/
def handle_callback (s : Option Flow) (data : List Char) :
    Option Flow × List Action :=
  let f := ensure_flow s
  if data = "CANCEL".data then (none, [Action.cancelled])
  else
    match dropPre "UNIT:".data data with
    | some rest =>
      let f1 := { f with unit_ref := some ⟨rest⟩ }
      match ask_lang f1 with
      | (f2, some a) => (some f2, [Action.ack, a])
      | (f2, none) => (some f2, [Action.ack])
    | none =>
      match dropPre "LANG:".data data with
      | some rest =>
        let f1 := { f with lang := some ⟨rest⟩ }
        match ask_variant f1 with
        | (f2, some a) => (some f2, [Action.ack, a])
        | (f2, none) => (some f2, [Action.ack])
      | none =>
        match dropPre "VAR:".data data with
        | some rest =>
          let f1 := { f with variant := some ⟨rest⟩ }
          match finalize_and_send f1 with
          | (s2, a) => (s2, [Action.ack, a])
        | none => (some f, [])

/-- A concrete catalog row used by several checks: brand `pardo`,
model `p43`, unit `49`, in stock. -/
def E1 : Entry :=
  { brand := "pardo", model := "p43", unit_ref := "49",
    variant := "standard", lang := "es", availability := "in_stock",
    delivery := "", url := "u1", keys_norm := ["pardo p43"] }

/-- A sibling of `E1`: same brand and model, unit `126`. -/
def E2 : Entry :=
  { brand := "pardo", model := "p43", unit_ref := "126",
    variant := "standard", lang := "es", availability := "in_stock",
    delivery := "", url := "u2", keys_norm := ["pardo p43"] }

/-- A one-row catalog. -/
def catalog1 : List Entry := [E1]

/-- A two-unit catalog for the same model. -/
def catalog2 : List Entry := [E1, E2]

/-- A constant scoring function: every key matches perfectly. -/
def sc100 : String → String → Nat := fun _ _ => 100

/-! ## Helper lemmas -/

theorem toNat_lowerChar_of_upper (c : Char) (h : 65 ≤ c.toNat ∧ c.toNat ≤ 90) :
    (lowerChar c).toNat = c.toNat + 32 := by
  simp only [lowerChar, dif_pos h]
  rfl

theorem lowerChar_lowerChar (c : Char) : lowerChar (lowerChar c) = lowerChar c := by
  by_cases h : 65 ≤ c.toNat ∧ c.toNat ≤ 90
  · have ht := toNat_lowerChar_of_upper c h
    simp only [lowerChar, dif_pos h] at ht ⊢
    rw [dif_neg]
    omega
  · simp only [lowerChar, dif_neg h]

theorem not_pySpace_of_digit (c : Char) (h : c.isDigit = true) :
    isPySpace c = false := by
  cases hsp : isPySpace c
  · rfl
  · exfalso
    have hc : c = ' ' ∨ c = '\t' ∨ c = '\n' ∨ c = '\r' ∨ c = '\x0b' ∨ c = '\x0c' := by
      simpa [isPySpace, Bool.or_eq_true, decide_eq_true_eq, or_assoc] using hsp
    rcases hc with rfl | rfl | rfl | rfl | rfl | rfl <;> simp [Char.isDigit] at h

/-! ## C4: normalize -/

/-- C4 counterexample: the claim says `normalize` trims trailing
whitespace and is idempotent, but the source strips before the
substitutions, so `normalize "a!"` is `"a "` (untrimmed) and a second
application changes it. -/
theorem c4_counterexample :
    normalize "a!" = "a " ∧ normalize (normalize "a!") ≠ normalize "a!" := by
  decide

/-- C4 (amended): `normalize` lowercases and trims its input, then
replaces every character outside {word, whitespace, `#`, `.`} with a
space and collapses whitespace runs; it is total, deterministic and
case-insensitive (`normalize (lower x) = normalize x` for every `x`),
but a space introduced by replacement at either end is not trimmed, so
`normalize` is not idempotent: `normalize "a!" = "a "` while
`normalize "a " = "a"`. -/
theorem c4_normalize_behavior :
    (∀ s : String, normalize ⟨s.data.map lowerChar⟩ = normalize s) ∧
      normalize "a!" = "a " ∧ normalize "a " = "a" ∧
      normalize "Pardo P43" = normalize "pardo p43" := by
  refine ⟨?_, by decide, by decide, by decide⟩
  intro s
  show (⟨collapseWs (replBad (trimWs ((s.data.map lowerChar).map lowerChar)))⟩ : String) = _
  rw [List.map_map, show lowerChar ∘ lowerChar = lowerChar from funext lowerChar_lowerChar]
  rfl

/-! ## C10: falsy filter values -/

/-- C10: `filter_doc` treats `None` and the empty string as "no
constraint": with all three slots `None` it is the identity, and an
empty-string slot behaves exactly like `None` in every position. -/
theorem c10_falsy_filters_identity (cands : List Entry) (u l v : Option String) :
    filter_doc cands none none none = cands ∧
      filter_doc cands (some "") l v = filter_doc cands none l v ∧
      filter_doc cands u (some "") v = filter_doc cands u none v ∧
      filter_doc cands u l (some "") = filter_doc cands u l none :=
  ⟨rfl, rfl, rfl, rfl⟩

/-! ## C9: unit reference truncation -/

/-- C9: a unit-reference marker followed by a run of more than five
digits is not rejected: `detect_unit_ref` matches greedily with no
boundary after the digit group and returns exactly the first five
digits of the run. -/
theorem c9_unit_ref_truncates (ds post : List Char)
    (hd : ∀ c ∈ ds, c.isDigit = true) (hl : 5 < ds.length) :
    detect_unit_ref ⟨'#' :: (ds ++ post)⟩ = some ⟨ds.take 5⟩ := by
  cases ds with
  | nil => simp at hl
  | cons d t =>
    have hdd : d.isDigit = true := hd d (List.mem_cons_self d t)
    have hds : isPySpace d = false := not_pySpace_of_digit d hdd
    have hdrop : (((d :: t) ++ post).dropWhile isPySpace) = (d :: t) ++ post := by
      simp [List.dropWhile_cons, hds]
    have htake : (((d :: t) ++ post).takeWhile Char.isDigit)
        = (d :: t) ++ post.takeWhile Char.isDigit :=
      List.takeWhile_append_of_pos hd
    have h5 : ((d :: t) ++ post.takeWhile Char.isDigit).take 5 = (d :: t).take 5 := by
      rw [List.take_append_eq_append_take]
      have hlen : (d :: t).length = t.length + 1 := rfl
      have h0 : 5 - (d :: t).length = 0 := by omega
      rw [h0]
      simp
    have hstep : tryAlts markerAlts ('#' :: ((d :: t) ++ post)) =
        (if ((((d :: t) ++ post).dropWhile isPySpace).takeWhile Char.isDigit).isEmpty
         then tryAlts ["unit".data, "unidad".data, "ordine".data, "order".data,
           "n.".data, "n".data] ('#' :: ((d :: t) ++ post))
         else some (((((d :: t) ++ post).dropWhile isPySpace).takeWhile
           Char.isDigit).take 5)) := rfl
    have halts : tryAlts markerAlts ('#' :: ((d :: t) ++ post))
        = some ((d :: t).take 5) := by
      rw [hstep, hdrop, htake, h5]
      rfl
    have hfind : findUnit ('#' :: ((d :: t) ++ post)) = some ((d :: t).take 5) := by
      show (match tryAlts markerAlts ('#' :: ((d :: t) ++ post)) with
            | some r => some r
            | none => findUnit ((d :: t) ++ post)) = some ((d :: t).take 5)
      rw [halts]
    show detect_unit_ref ⟨'#' :: ((d :: t) ++ post)⟩ = _
    unfold detect_unit_ref
    rw [show (⟨'#' :: ((d :: t) ++ post)⟩ : String).data = '#' :: ((d :: t) ++ post) from rfl,
      hfind]
    rfl

/-- C9 witness at the concrete input `"#123456"`. -/
theorem c9_witness :
    detect_unit_ref ⟨'#' :: ("123456".data ++ [])⟩ = some ⟨"123456".data.take 5⟩ :=
  c9_unit_ref_truncates "123456".data [] (by decide) (by decide)

/-! ## C1: the finalize fallback chain -/

theorem mem_slotFilter {field : Entry → String} {o : Option String}
    {out : List Entry} {x : Entry} (h : x ∈ slotFilter field o out) : x ∈ out := by
  cases o with
  | none => exact h
  | some s =>
    rw [show slotFilter field (some s) out
        = if s = "" then out else out.filter (fun x => decide (field x = s)) from rfl] at h
    split at h
    · exact h
    · exact (List.mem_filter.mp h).1

theorem mem_unitFilter_of_mem_filter_doc {cands : List Entry}
    {u l v : Option String} {x : Entry} (h : x ∈ filter_doc cands u l v) :
    x ∈ slotFilter Entry.unit_ref u cands :=
  mem_slotFilter (mem_slotFilter h)

theorem filter_doc_nil_of_unit {cands : List Entry} {u : Option String}
    (hU : slotFilter Entry.unit_ref u cands = []) (l v : Option String) :
    filter_doc cands u l v = [] := by
  rw [List.eq_nil_iff_forall_not_mem]
  intro x hx
  have := mem_unitFilter_of_mem_filter_doc hx
  rw [hU] at this
  simp at this

theorem docs4_nil_of_unit {f : Flow}
    (hU : slotFilter Entry.unit_ref f.unit_ref f.cands = []) : docs4 f = [] := by
  have h1 : docs1 f = [] := filter_doc_nil_of_unit hU f.lang f.variant
  have h2 : docs2 f = [] := by
    unfold docs2
    split
    · exact filter_doc_nil_of_unit hU f.lang none
    · exact h1
  have h3 : docs3 f = [] := by
    unfold docs3
    split
    · exact filter_doc_nil_of_unit hU f.lang none
    · exact h2
  unfold docs4
  rw [h3]
  simp
  exact filter_doc_nil_of_unit hU none none

theorem docs4_nil_iff (f : Flow) :
    docs4 f = [] ↔ slotFilter Entry.unit_ref f.unit_ref f.cands = [] := by
  constructor
  · intro h
    unfold docs4 at h
    split at h
    · exact h
    · rename_i hcond
      rw [h] at hcond
      simp at hcond
  · exact docs4_nil_of_unit

theorem finalize_noMatch_iff (f : Flow) :
    (finalize_and_send f).2 = Action.noMatch ↔
      slotFilter Entry.unit_ref f.unit_ref f.cands = [] := by
  unfold finalize_and_send
  rcases hd : docs4 f with _ | ⟨e, rest⟩
  · simpa using (docs4_nil_iff f).mp hd
  · simp only []
    constructor
    · intro h
      simp at h
    · intro hU
      rw [docs4_nil_of_unit hU] at hd
      simp at hd

/-- The C1 session: a single candidate whose unit reference differs from
the stored unit slot. -/
def flowC1 : Flow :=
  { query := some "pardo p43 #2", cands := [E1], unit_ref := some "2",
    lang := none, variant := none, stage := none }

/-- C1 counterexample: a session with a non-empty candidate set on which
`finalize_and_send` reports no match, refuting "the fallback chain ends
with a step that applies no filter at all" and "finalize on a session
with a non-empty candidateSet never reports NoMatch". -/
theorem c1_counterexample :
    flowC1.cands ≠ [] ∧ (finalize_and_send flowC1).2 = Action.noMatch := by
  decide

/-- C1 (amended): the fallback chain ends with a step that still filters
by the unitRef slot (dropping only language and variant).  On a session
with a non-empty candidateSet, NoMatch is reported exactly when the
unitRef slot is truthy and no candidate carries that unit reference;
in particular with a falsy unitRef slot the final step applies no filter
and finalize never reports NoMatch. -/
theorem c1_fallback_unit_only (f : Flow) (h : f.cands ≠ []) :
    (finalize_and_send f).2 = Action.noMatch ↔
      ∃ u, f.unit_ref = some u ∧ u ≠ "" ∧
        f.cands.filter (fun x => decide (x.unit_ref = u)) = [] := by
  rw [finalize_noMatch_iff]
  cases hu : f.unit_ref with
  | none =>
    rw [show slotFilter Entry.unit_ref none f.cands = f.cands from rfl]
    constructor
    · intro hc
      exact absurd hc h
    · rintro ⟨u, hsome, _⟩
      simp at hsome
  | some s =>
    rw [show slotFilter Entry.unit_ref (some s) f.cands
        = if s = "" then f.cands
          else f.cands.filter (fun x => decide (x.unit_ref = s)) from rfl]
    by_cases hs : s = ""
    · subst hs
      rw [if_pos rfl]
      constructor
      · intro hc
        exact absurd hc h
      · rintro ⟨u, hsome, hne, _⟩
        rw [Option.some.injEq] at hsome
        exact absurd hsome.symm hne
    · rw [if_neg hs]
      constructor
      · intro hc
        exact ⟨s, rfl, hs, hc⟩
      · rintro ⟨u, hsome, _, hfil⟩
        rw [Option.some.injEq] at hsome
        rw [hsome]
        exact hfil

/-- C1 witness: the amended characterisation applied to a concrete
session with a stale unit slot. -/
theorem c1_fallback_unit_only_witness :
    (finalize_and_send flowC1).2 = Action.noMatch :=
  (c1_fallback_unit_only flowC1 (by decide)).mpr ⟨"2", rfl, by decide, by decide⟩

/-! ## C2: resuming after an answer -/

/-- The session produced by the query `"pardo p43 en"` on `catalog2`:
suspended awaiting the unit choice, with the language slot pre-filled
by the detector. -/
def flowC2 : Flow :=
  { query := some "pardo p43 en", cands := [E1, E2], unit_ref := none,
    lang := some "en", variant := none, stage := some "unit" }

/-- `flowC2` after the user picks unit 49. -/
def flowC2sel : Flow := { flowC2 with unit_ref := some "49" }

/-- C2: evaluation of the code at the failing input.  The query
`"pardo p43 en"` suspends awaiting the unit with the language slot
already filled; the unit answer then writes the slot but the handler
emits only the acknowledgement — no variant question and no document,
contradicting "slot evaluation then resumes from the next step onward
until either a question ... is asked or ... finalize runs". -/
theorem c2_unit_answer_stalls :
    run_flow sc100 catalog2 none "pardo p43 en"
        = (some flowC2, Action.askUnit [E2, E1]) ∧
      handle_callback (some flowC2) "UNIT:49".data
        = (some flowC2sel, [Action.ack]) := by
  decide

/-! ## C3: answers for a slot not awaited -/

/-- C3 counterexample: a language answer while no question is pending
(fresh session, stage `none`) is not rejected — the handler creates a
flow and writes the language slot, mutating session state. -/
theorem c3_counterexample :
    (handle_callback none "LANG:en".data).1 ≠ none ∧
      ((handle_callback none "LANG:en".data).1).map Flow.lang
        = some (some "en") := by
  decide

/-- C3 (amended): answer events are dispatched on their data prefix
alone and the stored stage is never consulted, so an answer for a slot
not currently awaited is accepted, not rejected: a `LANG:` answer writes
the language slot (leaving query, candidates, unit and variant slots
unchanged) whatever the session's stage, and the flow proceeds. -/
theorem c3_answers_ignore_stage (f : Flow) (v : List Char) :
    ∃ f2, (handle_callback (some f) ("LANG:".data ++ v)).1 = some f2 ∧
      f2.lang = some ⟨v⟩ ∧ f2.query = f.query ∧ f2.cands = f.cands ∧
      f2.unit_ref = f.unit_ref ∧ f2.variant = f.variant := by
  have hred : handle_callback (some f) ("LANG:".data ++ v) =
      (match ask_variant { f with lang := some ⟨v⟩ } with
       | (f2, some a) => (some f2, [Action.ack, a])
       | (f2, none) => (some f2, [Action.ack])) := rfl
  rw [hred]
  by_cases htv : truthy f.variant = true
  · rw [show ask_variant { f with lang := some ⟨v⟩ }
        = ({ f with lang := some ⟨v⟩ }, none) from by
      unfold ask_variant
      rw [if_pos htv]]
    exact ⟨{ f with lang := some ⟨v⟩ }, rfl, rfl, rfl, rfl, rfl, rfl⟩
  · rw [show ask_variant { f with lang := some ⟨v⟩ }
        = ({ f with lang := some ⟨v⟩, stage := some "variant" },
            some Action.askVariant) from by
      unfold ask_variant
      rw [if_neg htv]]
    exact ⟨{ f with lang := some ⟨v⟩, stage := some "variant" },
      rfl, rfl, rfl, rfl, rfl, rfl⟩

/-! ## C5: resolution threshold and the sibling family -/

theorem bestGo_fst_mem (f : String → Nat) :
    ∀ (c : Entry × Nat) (l : List (String × Entry)),
      (bestGo f c l).1 = c.1 ∨ ∃ k, (k, (bestGo f c l).1) ∈ l := by
  intro c l
  induction l generalizing c with
  | nil => exact Or.inl rfl
  | cons p t ih =>
    rcases c with ⟨e, s⟩
    rcases p with ⟨k1, e1⟩
    rw [show bestGo f (e, s) ((k1, e1) :: t)
        = if s < f k1 then bestGo f (e1, f k1) t else bestGo f (e, s) t from rfl]
    split
    · rcases ih (e1, f k1) with h | ⟨k, hk⟩
      · exact Or.inr ⟨k1, by rw [h]; exact List.mem_cons_self _ _⟩
      · exact Or.inr ⟨k, List.mem_cons_of_mem _ hk⟩
    · rcases ih (e, s) with h | ⟨k, hk⟩
      · exact Or.inl h
      · exact Or.inr ⟨k, List.mem_cons_of_mem _ hk⟩

theorem extractOne_mem {f : String → Nat} {l : List (String × Entry)}
    {e : Entry} {s : Nat} (h : extractOne f l = some (e, s)) :
    ∃ k, (k, e) ∈ l := by
  cases l with
  | nil => simp [extractOne] at h
  | cons p t =>
    rcases p with ⟨k0, e0⟩
    rw [show extractOne f ((k0, e0) :: t) = some (bestGo f (e0, f k0) t) from rfl,
      Option.some.injEq] at h
    have hfst : (bestGo f (e0, f k0) t).1 = e := by rw [h]
    rcases bestGo_fst_mem f (e0, f k0) t with hh | ⟨k, hk⟩
    · rw [hfst] at hh
      have hh2 : e = e0 := hh
      rw [hh2]
      exact ⟨k0, List.mem_cons_self _ _⟩
    · rw [hfst] at hk
      exact ⟨k, List.mem_cons_of_mem _ hk⟩

theorem pairsOf_mem {catalog : List Entry} {k : String} {e : Entry}
    (h : (k, e) ∈ pairsOf catalog) : e ∈ catalog := by
  induction catalog with
  | nil => simp [pairsOf] at h
  | cons it t ih =>
    rw [show pairsOf (it :: t) = it.keys_norm.map (fun k => (k, it)) ++ pairsOf t
      from rfl, List.mem_append] at h
    rcases h with h | h
    · rcases List.mem_map.mp h with ⟨k1, _, hk1⟩
      rw [show e = it from (Prod.mk.injEq _ _ _ _ |>.mp hk1.symm).2]
      exact List.mem_cons_self _ _
    · exact List.mem_cons_of_mem _ (ih h)

theorem best_model_match_mem {scorer : String → String → Nat}
    {catalog : List Entry} {q : String} {e : Entry} {s : Nat}
    (h : best_model_match scorer catalog q = (some e, s)) : e ∈ catalog := by
  rcases hx : extractOne (scorer (normalize q)) (pairsOf catalog) with _ | ⟨e1, s1⟩
  · have hbm : best_model_match scorer catalog q = (none, 0) := by
      show (match extractOne (scorer (normalize q)) (pairsOf catalog) with
            | none => ((none : Option Entry), 0)
            | some (e, s) => (some e, s)) = ((none : Option Entry), 0)
      rw [hx]
    rw [hbm] at h
    simp at h
  · have hbm : best_model_match scorer catalog q = (some e1, s1) := by
      show (match extractOne (scorer (normalize q)) (pairsOf catalog) with
            | none => ((none : Option Entry), 0)
            | some (e, s) => (some e, s)) = (some e1, s1)
      rw [hx]
    rw [hbm] at h
    have he : e1 = e := by
      have := congrArg Prod.fst h
      simpa using this
    rcases extractOne_mem (he ▸ hx) with ⟨k, hk⟩
    exact pairsOf_mem hk

theorem candidates_for_query_eq (scorer : String → String → Nat)
    (catalog : List Entry) (q : String) :
    candidates_for_query scorer catalog q =
      (match best_model_match scorer catalog q with
       | (none, score) => ([], score)
       | (some base_item, score) =>
         if score < 70 then ([], score)
         else
           ((match detect_unit_ref q with
             | some u =>
               if ((catalog.filter (fun x =>
                     decide (x.brand = base_item.brand ∧ x.model = base_item.model))).filter
                     (fun x => decide (x.unit_ref = u))).isEmpty then
                 catalog.filter (fun x =>
                   decide (x.brand = base_item.brand ∧ x.model = base_item.model))
               else
                 (catalog.filter (fun x =>
                   decide (x.brand = base_item.brand ∧ x.model = base_item.model))).filter
                   (fun x => decide (x.unit_ref = u))
             | none => catalog.filter (fun x =>
                 decide (x.brand = base_item.brand ∧ x.model = base_item.model))),
            score)) := rfl

/-- C5: when the fuzzy matcher finds no hit or the best score is below
70, `candidates_for_query` returns the empty sequence together with
that score; when the best score is at least 70, it returns a non-empty
candidate set every member of which shares brand and model with the
best-matched entry. -/
theorem c5_resolve_threshold_family (scorer : String → String → Nat)
    (catalog : List Entry) (q : String) :
    (((best_model_match scorer catalog q).1 = none ∨
        (best_model_match scorer catalog q).2 < 70) →
      candidates_for_query scorer catalog q
        = ([], (best_model_match scorer catalog q).2)) ∧
    (∀ e, (best_model_match scorer catalog q).1 = some e →
      70 ≤ (best_model_match scorer catalog q).2 →
      (candidates_for_query scorer catalog q).1 ≠ [] ∧
        ∀ x ∈ (candidates_for_query scorer catalog q).1,
          x.brand = e.brand ∧ x.model = e.model) := by
  rcases hb : best_model_match scorer catalog q with ⟨bo, sc⟩
  constructor
  · intro h
    cases bo with
    | none =>
      rw [candidates_for_query_eq, hb]
    | some e =>
      have hlt : sc < 70 := by
        rcases h with h | h
        · exact absurd (show some e = none from h) (by simp)
        · exact h
      rw [candidates_for_query_eq, hb]
      exact if_pos hlt
  · intro e he h70
    cases bo with
    | none => exact absurd (show (none : Option Entry) = some e from he) (by simp)
    | some e1 =>
      have heq : e1 = e := Option.some.inj he
      subst heq
      have h70' : 70 ≤ sc := h70
      have hmem : e1 ∈ catalog := best_model_match_mem hb
      have hfam : e1 ∈ catalog.filter
          (fun x => decide (x.brand = e1.brand ∧ x.model = e1.model)) :=
        List.mem_filter.mpr ⟨hmem, by simp⟩
      have h1 : candidates_for_query scorer catalog q =
          ((match detect_unit_ref q with
            | some u =>
              if ((catalog.filter (fun x =>
                    decide (x.brand = e1.brand ∧ x.model = e1.model))).filter
                    (fun x => decide (x.unit_ref = u))).isEmpty then
                catalog.filter (fun x =>
                  decide (x.brand = e1.brand ∧ x.model = e1.model))
              else
                (catalog.filter (fun x =>
                  decide (x.brand = e1.brand ∧ x.model = e1.model))).filter
                  (fun x => decide (x.unit_ref = u))
            | none => catalog.filter (fun x =>
                decide (x.brand = e1.brand ∧ x.model = e1.model))),
           sc) := by
        rw [candidates_for_query_eq, hb]
        exact if_neg (Nat.not_lt.mpr h70')
      have h2 : (candidates_for_query scorer catalog q).1 =
          (match detect_unit_ref q with
           | some u =>
             if ((catalog.filter (fun x =>
                   decide (x.brand = e1.brand ∧ x.model = e1.model))).filter
                   (fun x => decide (x.unit_ref = u))).isEmpty then
               catalog.filter (fun x =>
                 decide (x.brand = e1.brand ∧ x.model = e1.model))
             else
               (catalog.filter (fun x =>
                 decide (x.brand = e1.brand ∧ x.model = e1.model))).filter
                 (fun x => decide (x.unit_ref = u))
           | none => catalog.filter (fun x =>
               decide (x.brand = e1.brand ∧ x.model = e1.model))) := by
        rw [h1]
      rw [h2]
      cases hu : detect_unit_ref q with
      | none =>
        refine ⟨List.ne_nil_of_mem hfam, ?_⟩
        intro x hx
        have := (List.mem_filter.mp hx).2
        simpa using this
      | some u =>
        simp only
        split
        · refine ⟨List.ne_nil_of_mem hfam, ?_⟩
          intro x hx
          have := (List.mem_filter.mp hx).2
          simpa using this
        · rename_i hne
          constructor
          · intro hnil
            rw [hnil] at hne
            simp at hne
          · intro x hx
            have := (List.mem_filter.mp (List.mem_filter.mp hx).1).2
            simpa using this

/-- C5 witness: a perfect-score match on the one-row catalog yields a
non-empty candidate set. -/
theorem c5_witness : (candidates_for_query sc100 catalog1 "m").1 ≠ [] :=
  ((c5_resolve_threshold_family sc100 catalog1 "m").2 E1 (by decide) (by decide)).1

/-! ## C6: unique_units -/

theorem mem_dedupGo {e : Entry} :
    ∀ (seen : List String) (l : List Entry), e ∈ dedupGo seen l →
      e.unit_ref ∉ seen ∧ e ∈ l := by
  intro seen l
  induction l generalizing seen with
  | nil => intro h; simp [dedupGo] at h
  | cons x t ih =>
    intro h
    rw [show dedupGo seen (x :: t)
        = if x.unit_ref ∈ seen then dedupGo seen t
          else x :: dedupGo (x.unit_ref :: seen) t from rfl] at h
    split at h
    · rcases ih seen h with ⟨h1, h2⟩
      exact ⟨h1, List.mem_cons_of_mem _ h2⟩
    · rename_i hxs
      rcases List.mem_cons.mp h with rfl | h
      · exact ⟨hxs, List.mem_cons_self _ _⟩
      · rcases ih (x.unit_ref :: seen) h with ⟨h1, h2⟩
        exact ⟨fun hc => h1 (List.mem_cons_of_mem _ hc), List.mem_cons_of_mem _ h2⟩

theorem pairwise_dedupGo :
    ∀ (seen : List String) (l : List Entry),
      List.Pairwise (fun a b => a.unit_ref ≠ b.unit_ref) (dedupGo seen l) := by
  intro seen l
  induction l generalizing seen with
  | nil => exact List.Pairwise.nil
  | cons x t ih =>
    rw [show dedupGo seen (x :: t)
        = if x.unit_ref ∈ seen then dedupGo seen t
          else x :: dedupGo (x.unit_ref :: seen) t from rfl]
    split
    · exact ih seen
    · refine List.Pairwise.cons ?_ (ih (x.unit_ref :: seen))
      intro b hb
      have h1 := (mem_dedupGo (x.unit_ref :: seen) t hb).1
      intro hc
      exact h1 (hc ▸ List.mem_cons_self _ _)

theorem find?_dedupGo {e : Entry} :
    ∀ (seen : List String) (l : List Entry), e ∈ dedupGo seen l →
      l.find? (fun x => decide (x.unit_ref = e.unit_ref)) = some e := by
  intro seen l
  induction l generalizing seen with
  | nil => intro h; simp [dedupGo] at h
  | cons x t ih =>
    intro h
    rw [show dedupGo seen (x :: t)
        = if x.unit_ref ∈ seen then dedupGo seen t
          else x :: dedupGo (x.unit_ref :: seen) t from rfl] at h
    split at h
    · rename_i hxs
      have hnot := (mem_dedupGo seen t h).1
      have hne : ¬(decide (x.unit_ref = e.unit_ref) = true) := by
        simp only [decide_eq_true_eq]
        intro hc
        exact hnot (hc ▸ hxs)
      rw [List.find?_cons_of_neg t hne]
      exact ih seen h
    · rename_i hxs
      rcases List.mem_cons.mp h with rfl | h
      · exact List.find?_cons_of_pos _ (by simp)
      · have hnot := (mem_dedupGo (x.unit_ref :: seen) t h).1
        have hne : ¬(decide (x.unit_ref = e.unit_ref) = true) := by
          simp only [decide_eq_true_eq]
          intro hc
          exact hnot (hc ▸ List.mem_cons_self _ _)
        rw [List.find?_cons_of_neg t hne]
        exact ih (x.unit_ref :: seen) h

theorem availRank_eq_zero {e : Entry} (h : availRank e = 0) :
    e.availability = "in_stock" := by
  by_cases hc : e.availability = "in_stock"
  · exact hc
  · exact absurd h (by simp [availRank, hc])

/-- C6: `unique_units` deduplicates by `unit_ref` keeping the first
entry seen per reference as representative (each output entry is the
`find?`-first entry of the input with its reference), orders the output
by the composite key (in-stock rank, then delivery, then unit
reference), never returns two entries with the same `unit_ref`, and
places every in-stock unit before every non-in-stock unit. -/
theorem c6_unique_units_spec (cands : List Entry) :
    List.Pairwise (fun a b => a.unit_ref ≠ b.unit_ref) (unique_units cands) ∧
      List.Pairwise keyLe (unique_units cands) ∧
      List.Pairwise (fun a b => b.availability = "in_stock" →
        a.availability = "in_stock") (unique_units cands) ∧
      ∀ e ∈ unique_units cands,
        cands.find? (fun x => decide (x.unit_ref = e.unit_ref)) = some e := by
  have hperm : List.Perm (unique_units cands) (dedupFirst cands) :=
    List.perm_insertionSort keyLe (dedupFirst cands)
  have hsorted : List.Pairwise keyLe (unique_units cands) :=
    List.sorted_insertionSort keyLe (dedupFirst cands)
  refine ⟨?_, hsorted, ?_, ?_⟩
  · exact (hperm.pairwise_iff (fun h => h.symm)).mpr (pairwise_dedupGo [] cands)
  · refine hsorted.imp ?_
    intro a b hab hbst
    have hrb : availRank b = 0 := by simp [availRank, hbst]
    rcases hab with h | ⟨h, _⟩
    · omega
    · exact availRank_eq_zero (by omega)
  · intro e he
    exact find?_dedupGo [] cands (hperm.mem_iff.mp he)

/-- C6 witness: on a concrete two-unit list the first-seen entry for
unit 49 is returned and found first. -/
theorem c6_witness :
    catalog2.find? (fun x => decide (x.unit_ref = E1.unit_ref)) = some E1 :=
  (c6_unique_units_spec catalog2).2.2.2 E1 (by decide)

/-! ## C7: unit narrowing widens silently -/

/-- C7: when the query carries a detected unit reference and the match
is accepted, `candidates_for_query` returns the narrowed family when
narrowing by that reference is non-empty, and silently returns the full
unnarrowed brand+model family when narrowing would empty the set; no
error is surfaced in either case. -/
theorem c7_unit_narrowing_widens (scorer : String → String → Nat)
    (catalog : List Entry) (q : String) (u : String) (e : Entry) (s : Nat)
    (hu : detect_unit_ref q = some u)
    (hb : best_model_match scorer catalog q = (some e, s))
    (h70 : 70 ≤ s) :
    (candidates_for_query scorer catalog q).1 =
      (if ((catalog.filter (fun x =>
              decide (x.brand = e.brand ∧ x.model = e.model))).filter
              (fun x => decide (x.unit_ref = u))).isEmpty then
         catalog.filter (fun x => decide (x.brand = e.brand ∧ x.model = e.model))
       else
         (catalog.filter (fun x =>
           decide (x.brand = e.brand ∧ x.model = e.model))).filter
           (fun x => decide (x.unit_ref = u))) := by
  have h1 : candidates_for_query scorer catalog q =
      ((match detect_unit_ref q with
        | some u1 =>
          if ((catalog.filter (fun x =>
                decide (x.brand = e.brand ∧ x.model = e.model))).filter
                (fun x => decide (x.unit_ref = u1))).isEmpty then
            catalog.filter (fun x => decide (x.brand = e.brand ∧ x.model = e.model))
          else
            (catalog.filter (fun x =>
              decide (x.brand = e.brand ∧ x.model = e.model))).filter
              (fun x => decide (x.unit_ref = u1))
        | none => catalog.filter (fun x =>
            decide (x.brand = e.brand ∧ x.model = e.model))),
       s) := by
    rw [candidates_for_query_eq, hb]
    exact if_neg (Nat.not_lt.mpr h70)
  rw [show (candidates_for_query scorer catalog q).1
      = ((candidates_for_query scorer catalog q).1 : List Entry) from rfl]
  rw [h1, hu]

/-- C7 witness: on the one-row catalog, the query `"#2"` detects unit 2,
narrowing empties the family, and the full family is returned. -/
theorem c7_witness :
    (candidates_for_query sc100 catalog1 "#2").1 =
      (if ((catalog1.filter (fun x =>
              decide (x.brand = E1.brand ∧ x.model = E1.model))).filter
              (fun x => decide (x.unit_ref = "2"))).isEmpty then
         catalog1.filter (fun x => decide (x.brand = E1.brand ∧ x.model = E1.model))
       else
         (catalog1.filter (fun x =>
           decide (x.brand = E1.brand ∧ x.model = E1.model))).filter
           (fun x => decide (x.unit_ref = "2"))) :=
  c7_unit_narrowing_widens sc100 catalog1 "#2" "2" E1 100
    (by decide) (by decide) (by decide)

/-! ## C8: a new query while suspended -/

/-- C8: a text query arriving while the session is suspended in an
awaiting stage is processed as a fresh resolution without clearing the
session: the stored query and candidate set are replaced, while the
previously filled unit/language/variant slots are carried into the new
resolution (a detector overwrites a slot only when it finds a value),
and the flow proceeds with the usual question steps. -/
theorem c8_requery_keeps_slots (scorer : String → String → Nat)
    (catalog : List Entry) (f : Flow) (q : String) (st : String)
    (cs : List Entry) (sc : Nat)
    (hstage : f.stage = some st)
    (hc : candidates_for_query scorer catalog q = (cs, sc))
    (hne : cs ≠ []) :
    run_flow scorer catalog (some f) q =
      continueFlow
        { f with
          query := some q
          cands := cs
          unit_ref := (detect_unit_ref q).or f.unit_ref
          lang := (detect_lang q).or f.lang
          variant := (detect_variant q).or f.variant } := by
  have h1 : run_flow scorer catalog (some f) q =
      (match candidates_for_query scorer catalog q with
       | ([], _) => (none, Action.noCandidate)
       | (cs1, _) => continueFlow { prefill f q with cands := cs1 }) := rfl
  rw [h1, hc]
  cases cs with
  | nil => exact absurd rfl hne
  | cons c t => rfl

/-- C8 witness: a session suspended awaiting the language keeps its
filled unit and language slots when a new query arrives. -/
theorem c8_witness :
    run_flow sc100 catalog2
        (some { query := some "old", cands := [E1], unit_ref := some "49",
                lang := some "en", variant := none, stage := some "lang" })
        "pardo p43" =
      continueFlow
        { query := some "pardo p43", cands := [E1, E2],
          unit_ref := (detect_unit_ref "pardo p43").or (some "49"),
          lang := (detect_lang "pardo p43").or (some "en"),
          variant := (detect_variant "pardo p43").or none,
          stage := some "lang" } :=
  c8_requery_keeps_slots sc100 catalog2
    { query := some "old", cands := [E1], unit_ref := some "49",
      lang := some "en", variant := none, stage := some "lang" }
    "pardo p43" "lang" [E1, E2] 100 rfl (by decide) (by decide)

end BoatBot
